import Mathlib

set_option maxRecDepth 4000

namespace AV

/-- JS strings are modelled as lists of UTF-16-ish characters. -/
abbrev Str := List Char

/-- The characters matched by the JS regex class \s, which is also the set
stripped by String.prototype.trim. -/
def jsWhitespaceChars : Str :=
  ['\t', '\n', '\x0b', '\x0c', '\r', ' ',
   Char.ofNat 0xa0, Char.ofNat 0x1680,
   Char.ofNat 0x2000, Char.ofNat 0x2001, Char.ofNat 0x2002, Char.ofNat 0x2003,
   Char.ofNat 0x2004, Char.ofNat 0x2005, Char.ofNat 0x2006, Char.ofNat 0x2007,
   Char.ofNat 0x2008, Char.ofNat 0x2009, Char.ofNat 0x200a,
   Char.ofNat 0x2028, Char.ofNat 0x2029, Char.ofNat 0x202f, Char.ofNat 0x205f,
   Char.ofNat 0x3000, Char.ofNat 0xfeff]

/-- Whether a character is JS whitespace (regex \s / trim set). -/
def isJsSpace (c : Char) : Bool := jsWhitespaceChars.contains c

/-- JS String.prototype.trim: strip whitespace from both ends. -/
def trimStr (s : Str) : Str :=
  ((s.dropWhile isJsSpace).reverse.dropWhile isJsSpace).reverse

/-- Message roles, from the Message interface in the source. -/
inductive Role where
  | user
  | model
  deriving DecidableEq, Repr

/-- UploadedFile from the source: name, MIME type, base64 payload, image flag. -/
structure UploadedFile where
  name : Str
  type : Str
  base64Data : Str
  isImage : Bool
  deriving DecidableEq, Repr

/-- Message from the source; `files` is optional exactly as in the interface. -/
structure Message where
  role : Role
  content : Str
  files : Option (List UploadedFile)
  deriving DecidableEq, Repr

/-- Truthiness of a JS string-or-null value: non-null and nonempty. -/
def truthy (s : Option Str) : Bool :=
  match s with
  | some l => !l.isEmpty
  | none => false

/-- getApiKey from the source: return the locally stored key when truthy,
else `process.env.API_KEY || null`, i.e. the build-time default when truthy,
else null. `stored` is the value under the fixed local-storage key,
`envDefault` is the build-time environment value. -/
def getApiKey (stored envDefault : Option Str) : Option Str :=
  if truthy stored then stored
  else if truthy envDefault then envDefault
  else none

/-- The field-level error string set by handleSaveApiKey on invalid input. -/
def invalidFormatError : Str :=
  "Invalid API Key format. Please enter a valid 39-character key.".data

/-- The credential-relevant state of the settings panel: the stored key
(mirroring the fixed local-storage slot plus the savedApiKey state) and the
field-level error. -/
structure SettingsState where
  savedApiKey : Option Str
  apiKeyError : Option Str
  deriving DecidableEq, Repr

/-- handleSaveApiKey from the source: trim the input, reject (leaving the
store untouched, setting the field error) when the trimmed key does not have
length 39 or contains whitespace, otherwise store the trimmed key and clear
the error. The input-field reset and the success alert are UI-only and
omitted. -/
def handleSaveApiKey (apiKeyInput : Str) (st : SettingsState) : SettingsState :=
  let keyToSave := trimStr apiKeyInput
  if keyToSave.length ≠ 39 ∨ keyToSave.any isJsSpace = true then
    { st with apiKeyError := some invalidFormatError }
  else
    { savedApiKey := some keyToSave, apiKeyError := none }

/-- handleRemoveApiKey from the source: delete the stored key. -/
def handleRemoveApiKey (st : SettingsState) : SettingsState :=
  { st with savedApiKey := none }

/-- The setMessages updater run for each streamed text fragment: copy the
conversation and append the fragment to the content of the last message when
that message exists and has the model role. -/
def appendFragment (msgs : List Message) (text : Str) : List Message :=
  match msgs.getLast? with
  | some lastMsg =>
    if lastMsg.role = Role.model then
      msgs.dropLast ++ [{ lastMsg with content := lastMsg.content ++ text }]
    else msgs
  | none => msgs

/-- The streaming consumption loop: for each chunk the cancellation flag is
polled first (breaking out when set), then the chunk text is appended when
truthy (nonempty). `stopAt` models the iteration index at which the
cooperative stop flag set by `generationControllerRef.stop` becomes visible;
chunks from that point on are never processed. -/
def runStream : List Message → List Str → Nat → List Message
  | msgs, [], _ => msgs
  | msgs, _ :: _, 0 => msgs
  | msgs, text :: rest, Nat.succ n =>
      runStream (if text.isEmpty then msgs else appendFragment msgs text) rest n

theorem getLast?_app {α : Type} (l : List α) (a : α) : (l ++ [a]).getLast? = some a :=
  List.getLast?_concat l

theorem dropLast_app {α : Type} (l : List α) (a : α) : (l ++ [a]).dropLast = l :=
  List.dropLast_concat

theorem appendFragment_concat (pre : List Message) (m : Message) (t : Str)
    (hm : m.role = Role.model) :
    appendFragment (pre ++ [m]) t = pre ++ [{ m with content := m.content ++ t }] := by
  unfold appendFragment
  rw [getLast?_app, dropLast_app]
  simp [hm]

theorem runStream_concat (pre : List Message) :
    ∀ (chunks : List Str) (stopAt : Nat) (m : Message), m.role = Role.model →
      runStream (pre ++ [m]) chunks stopAt
        = pre ++ [{ m with content := m.content ++ (chunks.take stopAt).flatten }] := by
  intro chunks
  induction chunks with
  | nil =>
    intro stopAt m hm
    simp [runStream]
  | cons t ts ih =>
    intro stopAt m hm
    cases stopAt with
    | zero => simp [runStream]
    | succ n =>
      rw [runStream]
      by_cases ht : t.isEmpty = true
      · have ht' : t = [] := by simpa using ht
        rw [if_pos ht, ih n m hm, ht']
        simp
      · rw [if_neg ht, appendFragment_concat pre m t hm]
        rw [ih n { m with content := m.content ++ t } hm]
        simp [List.append_assoc]

/-- C1: during streaming, each processed fragment changes the conversation
only by concatenating that fragment onto the content of the last (model)
message; once the cancellation flag is set after `stopAt` processed chunks,
no further fragment is appended, and everything appended before cancellation
is retained unchanged: the final content is exactly the old content followed
by the concatenation of the first `stopAt` chunks. -/
theorem claim1_streaming (pre : List Message) (m : Message) (chunks : List Str)
    (stopAt : Nat) (hm : m.role = Role.model) :
    (∀ t : Str, appendFragment (pre ++ [m]) t
        = pre ++ [{ m with content := m.content ++ t }]) ∧
    runStream (pre ++ [m]) chunks stopAt
        = pre ++ [{ m with content := m.content ++ (chunks.take stopAt).flatten }] :=
  ⟨fun t => appendFragment_concat pre m t hm, runStream_concat pre chunks stopAt m hm⟩

/-- Witness for C1 at a concrete conversation: three chunks, cancellation
visible after two; only the first two chunks (one of them empty and thus
skipped) are appended. -/
theorem claim1_streaming_witness :
    runStream [{ role := Role.model, content := "ab".data, files := none }]
        ["c".data, [], "d".data] 2
      = [{ role := Role.model, content := "abc".data, files := none }] := by
  have h := (claim1_streaming []
    { role := Role.model, content := "ab".data, files := none }
    ["c".data, [], "d".data] 2 rfl).2
  simpa using h

/-- C10: when the locally stored credential exists but is the empty string,
the read does not return it: truthiness (not key presence) decides the
fallback, so the result is the build-time default exactly when that default
is itself truthy, and null otherwise. -/
theorem claim10_empty_stored (env : Option Str) :
    getApiKey (some []) env = (if truthy env then env else none) ∧
    getApiKey (some []) env ≠ some [] ∧
    (getApiKey (some []) env = none ↔ truthy env = false) := by
  refine ⟨rfl, ?_, ?_⟩
  · cases env with
    | none => simp [getApiKey, truthy]
    | some d =>
      cases d with
      | nil => simp [getApiKey, truthy]
      | cons c cs => simp [getApiKey, truthy]
  · cases env with
    | none => simp [getApiKey, truthy]
    | some d =>
      cases d with
      | nil => simp [getApiKey, truthy]
      | cons c cs => simp [getApiKey, truthy]

/-- Witness for C10: with an empty stored credential and a nonempty default,
the read returns the default. -/
theorem claim10_empty_stored_witness :
    getApiKey (some []) (some ['d']) = some ['d'] :=
  (claim10_empty_stored (some ['d'])).1

theorem dropWhile_eq_self_of_none (p : Char → Bool) (l : Str)
    (h : ∀ c ∈ l, p c = false) : l.dropWhile p = l := by
  cases l with
  | nil => rfl
  | cons c cs =>
    rw [List.dropWhile_cons, h c (List.mem_cons_self c cs)]
    simp

theorem trimStr_eq_self (l : Str) (h : ∀ c ∈ l, isJsSpace c = false) :
    trimStr l = l := by
  unfold trimStr
  rw [dropWhile_eq_self_of_none isJsSpace l h]
  rw [dropWhile_eq_self_of_none isJsSpace l.reverse
    (fun c hc => h c (List.mem_reverse.mp hc))]
  exact List.reverse_reverse l

/-- C3 counterexample: the input consisting of 39 letters followed by one
space has length 40 and contains whitespace, so by the claim the save must
leave the stored credential unchanged and set a field error; but the code
trims before validating, so it stores the trimmed 39-letter key and clears
the error. -/
theorem claim3_counterexample :
    ((List.replicate 39 'A' ++ [' ']).length ≠ 39 ∨
      (List.replicate 39 'A' ++ [' ']).any isJsSpace = true) ∧
    handleSaveApiKey (List.replicate 39 'A' ++ [' '])
        { savedApiKey := none, apiKeyError := none }
      = { savedApiKey := some (List.replicate 39 'A'), apiKeyError := none } ∧
    some (List.replicate 39 'A') ≠ (none : Option Str) := by
  refine ⟨Or.inl (by decide), by decide, by decide⟩

/-- C3 amended: the validation is applied to the *trimmed* input. If the
trimmed input has length different from 39 or still contains whitespace, the
save leaves the stored credential unchanged and sets the field-level error;
otherwise the trimmed key is stored and the error is cleared. -/
theorem claim3_save_validation (input : Str) (st : SettingsState) :
    ((trimStr input).length ≠ 39 ∨ (trimStr input).any isJsSpace = true →
      (handleSaveApiKey input st).savedApiKey = st.savedApiKey ∧
      (handleSaveApiKey input st).apiKeyError = some invalidFormatError) ∧
    ((trimStr input).length = 39 ∧ (trimStr input).any isJsSpace = false →
      handleSaveApiKey input st
        = { savedApiKey := some (trimStr input), apiKeyError := none }) := by
  constructor
  · intro h
    unfold handleSaveApiKey
    rw [if_pos h]
    exact ⟨rfl, rfl⟩
  · intro h
    unfold handleSaveApiKey
    rw [if_neg]
    intro hcon
    rcases hcon with hlen | hws
    · exact hlen h.1
    · rw [h.2] at hws
      exact Bool.false_ne_true hws

/-- Witness for C3 amended, exercising both branches: a trimmed-to-38 input
is rejected without touching the store, and a trimmed valid input is stored. -/
theorem claim3_save_validation_witness :
    (handleSaveApiKey (List.replicate 38 'A')
        { savedApiKey := some ['k'], apiKeyError := none }).savedApiKey
        = some ['k'] ∧
    handleSaveApiKey ([' '] ++ List.replicate 39 'B')
        { savedApiKey := some ['k'], apiKeyError := none }
      = { savedApiKey := some (List.replicate 39 'B'), apiKeyError := none } := by
  constructor
  · exact ((claim3_save_validation (List.replicate 38 'A')
      { savedApiKey := some ['k'], apiKeyError := none }).1
      (Or.inl (by decide))).1
  · have h := (claim3_save_validation ([' '] ++ List.replicate 39 'B')
      { savedApiKey := some ['k'], apiKeyError := none }).2
      (by constructor <;> decide)
    rw [h]
    decide

/-- C4: for a 39-character whitespace-free key, saving then reading returns
the key itself, and removing then reading falls back to the (truthy)
environment-provided default. -/
theorem claim4_roundtrip (k : Str) (st : SettingsState) (d : Str)
    (hlen : k.length = 39) (hws : k.any isJsSpace = false) (hd : d ≠ []) :
    getApiKey (handleSaveApiKey k st).savedApiKey (some d) = some k ∧
    getApiKey (handleRemoveApiKey (handleSaveApiKey k st)).savedApiKey (some d)
      = some d := by
  have hall : ∀ c ∈ k, isJsSpace c = false := by
    intro c hc
    have := List.any_eq_false.mp hws c hc
    simpa using this
  have htrim : trimStr k = k := trimStr_eq_self k hall
  have hsave : handleSaveApiKey k st
      = { savedApiKey := some k, apiKeyError := none } := by
    unfold handleSaveApiKey
    rw [htrim, if_neg]
    intro hcon
    rcases hcon with h1 | h2
    · exact h1 hlen
    · rw [hws] at h2
      exact Bool.false_ne_true h2
  have hk : k.isEmpty = false := by
    cases k with
    | nil => simp at hlen
    | cons c cs => rfl
  constructor
  · rw [hsave]
    simp [getApiKey, truthy, hk]
  · rw [hsave]
    have hdm : d.isEmpty = false := by
      cases d with
      | nil => exact absurd rfl hd
      | cons c cs => rfl
    simp [handleRemoveApiKey, getApiKey, truthy, hdm]

/-- Witness for C4 at the concrete key of 39 repeated letters. -/
theorem claim4_roundtrip_witness :
    getApiKey (handleSaveApiKey (List.replicate 39 'X')
        { savedApiKey := none, apiKeyError := none }).savedApiKey (some ['d'])
      = some (List.replicate 39 'X') ∧
    getApiKey (handleRemoveApiKey (handleSaveApiKey (List.replicate 39 'X')
        { savedApiKey := none, apiKeyError := none })).savedApiKey (some ['d'])
      = some ['d'] :=
  claim4_roundtrip (List.replicate 39 'X')
    { savedApiKey := none, apiKeyError := none } ['d']
    (by decide) (by decide) (by decide)

/-- One part of the external request: inline binary data or text. -/
inductive Part where
  | inlineData (mimeType : Str) (data : Str)
  | text (t : Str)
  deriving DecidableEq, Repr

/-- One role-tagged content entry of the external request. -/
structure Content where
  role : Role
  parts : List Part
  deriving DecidableEq, Repr

/-- JS Array.prototype.join with separator ", ". -/
def joinComma : List Str → Str
  | [] => []
  | [n] => n
  | n :: rest => n ++ (", ".data) ++ joinComma rest

/-- Leading text of the fixed-format note for non-image attachments. -/
def notePre : Str :=
  "\n\n(For context, the following files were also attached: ".data

/-- Trailing text of the fixed-format note for non-image attachments. -/
def notePost : Str := ". You cannot read their contents.)".data

/-- The fixed-format note listing non-image attachment filenames. -/
def noteText (names : List Str) : Str := notePre ++ joinComma names ++ notePost

/-- The default instruction substituted for empty text with image attachments. -/
def defaultImageInstruction : Str := "Describe the attached image(s).".data

/-- The per-message body of the request-builder map in handleSendMessage: one
inline-data part per image attachment, the filename note appended for
non-image attachments, the default instruction substituted when there are
image attachments and the accumulated text is falsy, and a final text part
when the accumulated text is truthy. The source guards the whole attachment
block with `msg.files && msg.files.length > 0`; since each step inside that
block is a no-op on an empty file list, the guard is absorbed by taking `fs`
to be empty whenever the guard is false. -/
def msgToContent (msg : Message) : Content :=
  let fs : List UploadedFile :=
    match msg.files with
    | some l => if l.length > 0 then l else []
    | none => []
  let imageParts : List Part :=
    (fs.filter (fun f => f.isImage)).map
      (fun f => Part.inlineData f.type f.base64Data)
  let nonImageFiles := fs.filter (fun f => !f.isImage)
  let text1 : Str :=
    if nonImageFiles.length > 0 then
      msg.content ++ noteText (nonImageFiles.map (fun f => f.name))
    else msg.content
  let text2 : Str :=
    if fs.any (fun f => f.isImage) = true ∧ text1 = [] then defaultImageInstruction
    else text1
  { role := msg.role,
    parts := imageParts ++ (if text2 ≠ [] then [Part.text text2] else []) }

/-- The full request builder: map each message and drop entries whose parts
list is empty, exactly as `.map(...).filter(c => c.parts.length > 0)`. -/
def buildContents (msgs : List Message) : List Content :=
  (msgs.map msgToContent).filter (fun c => c.parts.length > 0)

theorem mem_buildContents_iff (msgs : List Message) (c : Content) :
    c ∈ buildContents msgs ↔
      (∃ m, m ∈ msgs ∧ msgToContent m = c) ∧ c.parts ≠ [] := by
  unfold buildContents
  rw [List.mem_filter, List.mem_map]
  constructor
  · rintro ⟨⟨m, hm, hmc⟩, hlen⟩
    refine ⟨⟨m, hm, hmc⟩, ?_⟩
    have : 0 < c.parts.length := by simpa using hlen
    exact List.length_pos.mp this
  · rintro ⟨⟨m, hm, hmc⟩, hne⟩
    refine ⟨⟨m, hm, hmc⟩, ?_⟩
    have : 0 < c.parts.length := List.length_pos.mpr hne
    simpa using this

/-- C2: the request builder emits exactly the per-message transforms whose
computed parts list is nonempty: a content entry is in the output iff it is
the transform of some conversation message and has at least one part. -/
theorem claim2_drop_empty (msgs : List Message) (c : Content) :
    c ∈ buildContents msgs ↔
      (∃ m, m ∈ msgs ∧ msgToContent m = c) ∧ c.parts ≠ [] :=
  mem_buildContents_iff msgs c

/-- Witness for C2: a text message is kept, and the entry for an empty model
placeholder (zero parts) is dropped. -/
theorem claim2_drop_empty_witness :
    ({ role := Role.user, parts := [Part.text "hi".data] } : Content) ∈
      buildContents
        [{ role := Role.user, content := "hi".data, files := none },
         { role := Role.model, content := [], files := none }] ∧
    ¬ ({ role := Role.model, parts := [] } : Content) ∈
      buildContents
        [{ role := Role.user, content := "hi".data, files := none },
         { role := Role.model, content := [], files := none }] := by
  constructor
  · exact (claim2_drop_empty _ _).mpr
      ⟨⟨{ role := Role.user, content := "hi".data, files := none },
        by simp, by decide⟩, by decide⟩
  · intro hmem
    have h := (claim2_drop_empty
      [{ role := Role.user, content := "hi".data, files := none },
       { role := Role.model, content := [], files := none }]
      { role := Role.model, parts := [] }).mp hmem
    exact h.2 rfl

/-- C5 counterexample: for a message with a single image attachment and empty
text, the builder emits the inline part plus a text part — but that text part
carries the string "Describe the attached image(s)." from the source, which
differs from the "describe the attached images" stated in the claim. -/
theorem claim5_counterexample :
    msgToContent
        { role := Role.user, content := [],
          files := some [{ name := "a.png".data, type := "image/png".data,
                           base64Data := "QUJD".data, isImage := true }] }
      = { role := Role.user,
          parts := [Part.inlineData ("image/png".data) ("QUJD".data),
                    Part.text defaultImageInstruction] } ∧
    defaultImageInstruction ≠ "describe the attached images".data := by
  constructor
  · decide
  · decide

/-- C5 amended: a message whose attachments are all images and whose text is
empty is not dropped: it emits one inline-binary part per attachment plus a
text part carrying the source default instruction
"Describe the attached image(s).". -/
theorem claim5_image_only (m : Message) (fs : List UploadedFile)
    (hf : m.files = some fs) (hne : fs ≠ [])
    (himg : ∀ f ∈ fs, f.isImage = true) (hc : m.content = []) :
    msgToContent m
      = { role := m.role,
          parts := (fs.map (fun f => Part.inlineData f.type f.base64Data)) ++
                   [Part.text defaultImageInstruction] } ∧
    (msgToContent m).parts ≠ [] ∧
    (∀ msgs, m ∈ msgs → msgToContent m ∈ buildContents msgs) := by
  have hlen : fs.length > 0 := by
    cases fs with
    | nil => exact absurd rfl hne
    | cons f fsr => simp
  have hfilter_img : fs.filter (fun f => f.isImage) = fs :=
    List.filter_eq_self.mpr himg
  have hfilter_non : fs.filter (fun f => !f.isImage) = [] :=
    List.filter_eq_nil_iff.mpr (by
      intro f hfm
      simp [himg f hfm])
  have hany : fs.any (fun f => f.isImage) = true := by
    cases fs with
    | nil => exact absurd rfl hne
    | cons f fsr =>
      have := himg f (List.mem_cons_self f fsr)
      simp [List.any_cons, this]
  have hmain : msgToContent m
      = { role := m.role,
          parts := (fs.map (fun f => Part.inlineData f.type f.base64Data)) ++
                   [Part.text defaultImageInstruction] } := by
    unfold msgToContent
    rw [hf]
    simp only [if_pos hlen, hfilter_img, hfilter_non, hc]
    have hd : defaultImageInstruction ≠ [] := by decide
    simp [hany, hd]
  refine ⟨hmain, ?_, ?_⟩
  · rw [hmain]
    simp
  · intro msgs hmem
    apply (mem_buildContents_iff msgs (msgToContent m)).mpr
    refine ⟨⟨m, hmem, rfl⟩, ?_⟩
    rw [hmain]
    simp

/-- Witness for C5 amended at a concrete one-image message. -/
theorem claim5_image_only_witness :
    msgToContent
        { role := Role.user, content := [],
          files := some [{ name := "a.png".data, type := "image/png".data,
                           base64Data := "QUJD".data, isImage := true }] }
      = { role := Role.user,
          parts := [Part.inlineData ("image/png".data) ("QUJD".data),
                    Part.text defaultImageInstruction] } := by
  have h := (claim5_image_only
    { role := Role.user, content := [],
      files := some [{ name := "a.png".data, type := "image/png".data,
                       base64Data := "QUJD".data, isImage := true }] }
    [{ name := "a.png".data, type := "image/png".data,
       base64Data := "QUJD".data, isImage := true }]
    rfl (by decide) (by decide) rfl).1
  simpa using h

/-- C6: a message all of whose (nonempty) attachments are non-image emits no
inline-binary part: its parts are exactly one text part consisting of the
message text followed by the fixed-format note built only from the attachment
filenames, so the attachments' base64 contents never reach the request. -/
theorem claim6_non_image (m : Message) (fs : List UploadedFile)
    (hf : m.files = some fs) (hne : fs ≠ [])
    (hnimg : ∀ f ∈ fs, f.isImage = false) :
    msgToContent m
      = { role := m.role,
          parts := [Part.text (m.content ++ noteText (fs.map (fun f => f.name)))] } ∧
    (∀ p ∈ (msgToContent m).parts, ∀ mt dt, p ≠ Part.inlineData mt dt) := by
  have hlen : fs.length > 0 := by
    cases fs with
    | nil => exact absurd rfl hne
    | cons f fsr => simp
  have hfilter_img : fs.filter (fun f => f.isImage) = [] :=
    List.filter_eq_nil_iff.mpr (by
      intro f hfm
      simp [hnimg f hfm])
  have hfilter_non : fs.filter (fun f => !f.isImage) = fs :=
    List.filter_eq_self.mpr (by
      intro f hfm
      simp [hnimg f hfm])
  have hany : fs.any (fun f => f.isImage) = false := by
    apply List.any_eq_false.mpr
    intro f hfm
    simp [hnimg f hfm]
  have hnote : m.content ++ noteText (fs.map (fun f => f.name)) ≠ [] := by
    intro hcon
    have := List.append_eq_nil.mp hcon
    have h2 := this.2
    unfold noteText at h2
    have := (List.append_eq_nil.mp h2).1
    have h3 := (List.append_eq_nil.mp this).1
    revert h3
    decide
  have hmain : msgToContent m
      = { role := m.role,
          parts := [Part.text (m.content ++ noteText (fs.map (fun f => f.name)))] } := by
    unfold msgToContent
    rw [hf]
    simp only [if_pos hlen, hfilter_img, hfilter_non, hany]
    simp [hlen, hnote]
  refine ⟨hmain, ?_⟩
  intro p hp mt dt
  rw [hmain] at hp
  simp at hp
  rw [hp]
  intro hcon
  cases hcon

/-- Witness for C6 at a concrete message with one pdf attachment: the base64
payload does not occur in the emitted request entry. -/
theorem claim6_non_image_witness :
    msgToContent
        { role := Role.user, content := "see file".data,
          files := some [{ name := "r.pdf".data, type := "application/pdf".data,
                           base64Data := "UERG".data, isImage := false }] }
      = { role := Role.user,
          parts := [Part.text ("see file".data ++ noteText ["r.pdf".data])] } := by
  have h := (claim6_non_image
    { role := Role.user, content := "see file".data,
      files := some [{ name := "r.pdf".data, type := "application/pdf".data,
                       base64Data := "UERG".data, isImage := false }] }
    [{ name := "r.pdf".data, type := "application/pdf".data,
       base64Data := "UERG".data, isImage := false }]
    rfl (by decide) (by decide)).1
  simpa using h

/-- A file as delivered by the browser file picker; `base64Payload` is the
base64 portion of the data URL later produced by the FileReader. -/
structure BrowserFile where
  name : Str
  type : Str
  base64Payload : Str
  deriving DecidableEq, Repr

/-- MIME-type marker deciding the image flag. -/
def imageMimeMarker : Str := "image/".data

/-- The UploadedFile built inside the FileReader onload callback. -/
def encodeFile (f : BrowserFile) : UploadedFile :=
  { name := f.name, type := f.type, base64Data := f.base64Payload,
    isImage := imageMimeMarker.isPrefixOf f.type }

/-- The alert text shown when the attachment limit would be exceeded. -/
def maxFilesAlert : Str := "You can upload a maximum of 3 files.".data

/-- Result of one run of handleFileUpload: the pending-attachment list and
the alert surfaced, if any. -/
structure UploadOutcome where
  uploadedFiles : List UploadedFile
  alerted : Option Str
  deriving DecidableEq, Repr

/-- handleFileUpload from the source: when the pending count plus the batch
size exceeds 3, alert and return without touching the list; otherwise each
file of the batch is read and appended by its onload callback. The
asynchronous callbacks are modelled as appending in batch order (the source
gives no ordering guarantee across concurrent reads, which is irrelevant to
the blocked branch). -/
def handleFileUpload (pending : List UploadedFile) (batch : List BrowserFile) :
    UploadOutcome :=
  if pending.length + batch.length > 3 then
    { uploadedFiles := pending, alerted := some maxFilesAlert }
  else
    { uploadedFiles := pending ++ batch.map encodeFile, alerted := none }

/-- C7: whenever the pending attachments plus the batch would exceed 3, the
upload handler leaves the pending-attachment list exactly as it was — no file
of the batch is appended — and surfaces the user-facing warning. -/
theorem claim7_upload_limit (pending : List UploadedFile) (batch : List BrowserFile)
    (h : pending.length + batch.length > 3) :
    handleFileUpload pending batch
      = { uploadedFiles := pending, alerted := some maxFilesAlert } := by
  unfold handleFileUpload
  rw [if_pos h]

/-- Witness for C7: a fourth file arriving while three are pending is
blocked. -/
theorem claim7_upload_limit_witness :
    handleFileUpload
        [{ name := ['a'], type := ['t'], base64Data := [], isImage := false },
         { name := ['b'], type := ['t'], base64Data := [], isImage := false },
         { name := ['c'], type := ['t'], base64Data := [], isImage := false }]
        [{ name := ['d'], type := ['t'], base64Payload := [] }]
      = { uploadedFiles :=
            [{ name := ['a'], type := ['t'], base64Data := [], isImage := false },
             { name := ['b'], type := ['t'], base64Data := [], isImage := false },
             { name := ['c'], type := ['t'], base64Data := [], isImage := false }],
          alerted := some maxFilesAlert } :=
  claim7_upload_limit _ _ (by decide)

/-- The generic in-conversation error message from the source. -/
def genericError : Str := "Sorry, I encountered an error. Please try again.".data

/-- The invalid-key in-conversation error message from the source. -/
def invalidKeyError : Str :=
  "Your API key is invalid. Please check it in the Settings menu.".data

/-- The substring the source looks for in an invalid-key failure. -/
def apiKeyNotValidMarker : Str := "API key not valid".data

/-- JS String.prototype.includes: substring containment. -/
def jsIncludes (s sub : Str) : Bool :=
  match s with
  | [] => sub.isEmpty
  | c :: rest => sub.isPrefixOf (c :: rest) || jsIncludes rest sub

/-- The error string chosen in the catch block: the invalid-key text when the
thrown value is an Error whose message includes the marker, else the generic
text. -/
def errorText (isErrorInstance : Bool) (message : Str) : Str :=
  if isErrorInstance && jsIncludes message apiKeyNotValidMarker then invalidKeyError
  else genericError

/-- The setMessages updater of the catch block: replace the content of an
empty trailing model message, otherwise append a fresh model message carrying
the error string. -/
def applyError (msgs : List Message) (errorMessage : Str) : List Message :=
  match msgs.getLast? with
  | some lastMsg =>
    if lastMsg.role = Role.model ∧ lastMsg.content = [] then
      msgs.dropLast ++ [{ lastMsg with content := errorMessage }]
    else msgs ++ [{ role := Role.model, content := errorMessage, files := none }]
  | none => msgs ++ [{ role := Role.model, content := errorMessage, files := none }]

/-- C8: on an API-call error, an empty trailing model placeholder has its
content replaced by the chosen error string; any other trailing message —
in particular a model message holding partial content — is left unchanged
and a new model message carrying the error string is appended instead. The
chosen string is the distinct invalid-key text exactly when the thrown Error
mentions the marker, else the generic text, and the two texts differ. -/
theorem claim8_error_handling (pre : List Message) (m : Message)
    (isErr : Bool) (emsg : Str) :
    (m.role = Role.model → m.content = [] →
      applyError (pre ++ [m]) (errorText isErr emsg)
        = pre ++ [{ m with content := errorText isErr emsg }]) ∧
    (¬ (m.role = Role.model ∧ m.content = []) →
      applyError (pre ++ [m]) (errorText isErr emsg)
        = (pre ++ [m]) ++
          [{ role := Role.model, content := errorText isErr emsg, files := none }]) ∧
    (isErr = true → jsIncludes emsg apiKeyNotValidMarker = true →
      errorText isErr emsg = invalidKeyError) ∧
    (isErr = false ∨ jsIncludes emsg apiKeyNotValidMarker = false →
      errorText isErr emsg = genericError) ∧
    invalidKeyError ≠ genericError := by
  refine ⟨?_, ?_, ?_, ?_, by decide⟩
  · intro hrole hcontent
    unfold applyError
    rw [getLast?_app, dropLast_app]
    simp [hrole, hcontent]
  · intro hnot
    unfold applyError
    rw [getLast?_app]
    simp only [if_neg hnot]
  · intro hisErr hmark
    unfold errorText
    rw [hisErr, hmark]
    rfl
  · intro hor
    unfold errorText
    rcases hor with h | h
    · rw [h]
      rfl
    · rw [h]
      simp

/-- Witness for C8, exercising both conversation shapes and both error
texts at concrete inputs. -/
theorem claim8_error_handling_witness :
    applyError
        [{ role := Role.user, content := ['q'], files := none },
         { role := Role.model, content := [], files := none }]
        (errorText true ("x API key not valid y".data))
      = [{ role := Role.user, content := ['q'], files := none },
         { role := Role.model, content := invalidKeyError, files := none }] ∧
    applyError
        [{ role := Role.model, content := ['p'], files := none }]
        (errorText false [])
      = [{ role := Role.model, content := ['p'], files := none },
         { role := Role.model, content := genericError, files := none }] := by
  constructor
  · have h := claim8_error_handling
      [{ role := Role.user, content := ['q'], files := none }]
      { role := Role.model, content := [], files := none }
      true ("x API key not valid y".data)
    have he := h.2.2.1 rfl (by decide)
    have hm := h.1 rfl rfl
    rw [he] at hm
    simpa using hm
  · have h := claim8_error_handling []
      { role := Role.model, content := ['p'], files := none } false []
    have he := h.2.2.2.1 (Or.inl rfl)
    have hm := h.2.1 (by
      intro hcon
      exact List.cons_ne_nil 'p' [] hcon.2)
    rw [he] at hm
    simpa using hm

/-- The fenced-code delimiter of the markdown regex. -/
def threeTicks : Str := "```".data

/-- The bold delimiter of the markdown regex. -/
def twoStars : Str := "**".data

/-- The italic delimiter of the markdown regex. -/
def oneStar : Str := "*".data

/-- The inline-code delimiter of the markdown regex. -/
def oneTick : Str := "`".data

/-- Line terminators, which the JS regex `.` does not match. -/
def isLineTerm (c : Char) : Bool :=
  c == '\n' || c == '\r' || c == Char.ofNat 0x2028 || c == Char.ofNat 0x2029

/-- Lazy-quantifier search for the closing delimiter: return the shortest
interior (not crossing a line terminator when `dotOnly` is set, mirroring
`.*?` versus `[\s\S]*?`) together with the remainder after the close. -/
def findClose (close : Str) (dotOnly : Bool) : Str → Option (Str × Str)
  | [] => none
  | c :: rest =>
    if close.isPrefixOf (c :: rest) then some ([], (c :: rest).drop close.length)
    else if dotOnly && isLineTerm c then none
    else
      match findClose close dotOnly rest with
      | some (interior, r) => some (c :: interior, r)
      | none => none

/-- Try one alternative of the markdown regex at the current position:
opening delimiter, lazily matched interior, closing delimiter. Returns the
whole matched token and the remainder. -/
def tryTok (openDelim closeDelim : Str) (dotOnly : Bool) (s : Str) :
    Option (Str × Str) :=
  if openDelim.isPrefixOf s then
    match findClose closeDelim dotOnly (s.drop openDelim.length) with
    | some (interior, r) => some (openDelim ++ interior ++ closeDelim, r)
    | none => none
  else none

/-- One attempt of the whole alternation at the current position, in the
source order of the four token shapes. -/
def matchAt (s : Str) : Option (Str × Str) :=
  match tryTok threeTicks threeTicks false s with
  | some res => some res
  | none =>
    match tryTok twoStars twoStars true s with
    | some res => some res
    | none =>
      match tryTok oneStar oneStar true s with
      | some res => some res
      | none => tryTok oneTick oneTick true s

/-- JS String.prototype.split with the capturing markdown regex: alternate
unmatched text runs and matched tokens, scanning left to right. `fuel` is a
structural-recursion bound instantiated with the content length, which
suffices because every match consumes at least one character. -/
def mdSplitAux : Nat → Str → Str → List Str
  | _, acc, [] => [acc.reverse]
  | 0, acc, s => [acc.reverse ++ s]
  | Nat.succ n, acc, c :: rest =>
    match matchAt (c :: rest) with
    | some (tok, r) => acc.reverse :: tok :: mdSplitAux n [] r
    | none => mdSplitAux n (c :: acc) rest

/-- The segmentation of MarkdownRenderer:
`content.split(pattern).filter(part => part)`. -/
def mdSplit (content : Str) : List Str :=
  (mdSplitAux content.length [] content).filter (fun p => !p.isEmpty)

/-- The render classification of one segment. -/
inductive Rendered where
  | codeBlock (code : Str)
  | bold (t : Str)
  | italic (t : Str)
  | inlineCode (t : Str)
  | text (t : Str)
  deriving DecidableEq, Repr

/-- JS String.prototype.substring: clamp both indices to the length and swap
them when start exceeds end. -/
def jsSubstring (s : Str) (a b : Nat) : Str :=
  let a2 := min a s.length
  let b2 := min b s.length
  (s.take (max a2 b2)).drop (min a2 b2)

/-- The segment classifier of MarkdownRenderer, checking the four delimiter
pairs in source order via startsWith/endsWith and falling through to plain
text. -/
def classify (p : Str) : Rendered :=
  if threeTicks.isPrefixOf p && threeTicks.isSuffixOf p then
    Rendered.codeBlock (trimStr (jsSubstring p 3 (p.length - 3)))
  else if twoStars.isPrefixOf p && twoStars.isSuffixOf p then
    Rendered.bold (jsSubstring p 2 (p.length - 2))
  else if oneStar.isPrefixOf p && oneStar.isSuffixOf p then
    Rendered.italic (jsSubstring p 1 (p.length - 1))
  else if oneTick.isPrefixOf p && oneTick.isSuffixOf p then
    Rendered.inlineCode (jsSubstring p 1 (p.length - 1))
  else Rendered.text p

/-- Whether a segment both starts and ends with one of the four delimiters,
i.e. whether the classifier picks a styled rendering for it. -/
def isDelimiterWrapped (p : Str) : Bool :=
  (threeTicks.isPrefixOf p && threeTicks.isSuffixOf p) ||
  (twoStars.isPrefixOf p && twoStars.isSuffixOf p) ||
  (oneStar.isPrefixOf p && oneStar.isSuffixOf p) ||
  (oneTick.isPrefixOf p && oneTick.isSuffixOf p)

theorem isPrefixOf_exists :
    ∀ (l s : Str), l.isPrefixOf s = true → ∃ t, s = l ++ t := by
  intro l
  induction l with
  | nil => intro s _; exact ⟨s, rfl⟩
  | cons a as ih =>
    intro s h
    cases s with
    | nil => simp [List.isPrefixOf] at h
    | cons b bs =>
      simp only [List.isPrefixOf, Bool.and_eq_true, beq_iff_eq] at h
      obtain ⟨hab, htail⟩ := h
      obtain ⟨t, ht⟩ := ih bs htail
      exact ⟨t, by rw [ht, hab]; rfl⟩

theorem findClose_sound (close : Str) (dotOnly : Bool) :
    ∀ (s interior r : Str), findClose close dotOnly s = some (interior, r) →
      s = interior ++ close ++ r := by
  intro s
  induction s with
  | nil => intro interior r h; simp [findClose] at h
  | cons c rest ih =>
    intro interior r h
    simp only [findClose] at h
    by_cases hp : close.isPrefixOf (c :: rest) = true
    · rw [if_pos hp] at h
      obtain ⟨t, ht⟩ := isPrefixOf_exists close (c :: rest) hp
      have hdrop : (c :: rest).drop close.length = t := by
        rw [ht]; exact List.drop_left close t
      rw [hdrop] at h
      simp only [Option.some.injEq, Prod.mk.injEq] at h
      obtain ⟨h1, h2⟩ := h
      rw [← h1, ← h2, ht]
      simp
    · rw [if_neg hp] at h
      by_cases hd : (dotOnly && isLineTerm c) = true
      · rw [if_pos hd] at h
        cases h
      · rw [if_neg hd] at h
        cases hfc : findClose close dotOnly rest with
        | none => rw [hfc] at h; cases h
        | some pr =>
          obtain ⟨int0, r0⟩ := pr
          rw [hfc] at h
          simp only [Option.some.injEq, Prod.mk.injEq] at h
          obtain ⟨h1, h2⟩ := h
          rw [← h1, ← h2]
          have := ih int0 r0 hfc
          rw [List.cons_append, List.cons_append, ← this]

theorem tryTok_sound (openDelim closeDelim : Str) (dotOnly : Bool)
    (s tok r : Str) (ho : openDelim ≠ [])
    (h : tryTok openDelim closeDelim dotOnly s = some (tok, r)) :
    tok ++ r = s ∧ tok ≠ [] := by
  unfold tryTok at h
  by_cases hp : openDelim.isPrefixOf s = true
  · rw [if_pos hp] at h
    obtain ⟨t, ht⟩ := isPrefixOf_exists openDelim s hp
    have hdrop : s.drop openDelim.length = t := by
      rw [ht]; exact List.drop_left openDelim t
    rw [hdrop] at h
    cases hfc : findClose closeDelim dotOnly t with
    | none => rw [hfc] at h; cases h
    | some pr =>
      obtain ⟨interior, r0⟩ := pr
      rw [hfc] at h
      simp only [Option.some.injEq, Prod.mk.injEq] at h
      obtain ⟨h1, h2⟩ := h
      have hsound := findClose_sound closeDelim dotOnly t interior r0 hfc
      constructor
      · rw [← h1, ← h2, ht, hsound]
        simp [List.append_assoc]
      · rw [← h1]
        cases openDelim with
        | nil => exact absurd rfl ho
        | cons a as => simp
  · rw [if_neg hp] at h
    cases h

theorem matchAt_sound (s tok r : Str) (h : matchAt s = some (tok, r)) :
    tok ++ r = s ∧ tok ≠ [] := by
  unfold matchAt at h
  cases h1 : tryTok threeTicks threeTicks false s with
  | some res1 =>
    obtain ⟨t1, r1⟩ := res1
    rw [h1] at h
    simp only [Option.some.injEq, Prod.mk.injEq] at h
    obtain ⟨ha, hb⟩ := h
    rw [← ha, ← hb]
    exact tryTok_sound threeTicks threeTicks false s t1 r1 (by decide) h1
  | none =>
    rw [h1] at h
    simp only [] at h
    cases h2 : tryTok twoStars twoStars true s with
    | some res2 =>
      obtain ⟨t2, r2⟩ := res2
      rw [h2] at h
      simp only [Option.some.injEq, Prod.mk.injEq] at h
      obtain ⟨ha, hb⟩ := h
      rw [← ha, ← hb]
      exact tryTok_sound twoStars twoStars true s t2 r2 (by decide) h2
    | none =>
      rw [h2] at h
      simp only [] at h
      cases h3 : tryTok oneStar oneStar true s with
      | some res3 =>
        obtain ⟨t3, r3⟩ := res3
        rw [h3] at h
        simp only [Option.some.injEq, Prod.mk.injEq] at h
        obtain ⟨ha, hb⟩ := h
        rw [← ha, ← hb]
        exact tryTok_sound oneStar oneStar true s t3 r3 (by decide) h3
      | none =>
        rw [h3] at h
        simp only [] at h
        exact tryTok_sound oneTick oneTick true s tok r (by decide) h

theorem matchAt_lt (s tok r : Str) (h : matchAt s = some (tok, r)) :
    r.length < s.length := by
  obtain ⟨happ, hne⟩ := matchAt_sound s tok r h
  have hlen : tok.length + r.length = s.length := by
    rw [← happ, List.length_append]
  have htok : 0 < tok.length := List.length_pos.mpr hne
  omega

theorem mdSplitAux_flatten :
    ∀ (fuel : Nat) (acc s : Str), s.length ≤ fuel →
      (mdSplitAux fuel acc s).flatten = acc.reverse ++ s := by
  intro fuel
  induction fuel with
  | zero =>
    intro acc s hs
    cases s with
    | nil => simp [mdSplitAux]
    | cons c rest => simp at hs
  | succ n ih =>
    intro acc s hs
    cases s with
    | nil => simp [mdSplitAux]
    | cons c rest =>
      simp only [mdSplitAux]
      cases hm : matchAt (c :: rest) with
      | some pr =>
        obtain ⟨tok, r⟩ := pr
        show (List.reverse acc :: tok :: mdSplitAux n [] r).flatten
          = List.reverse acc ++ c :: rest
        have hlt := matchAt_lt (c :: rest) tok r hm
        have hr : r.length ≤ n := by
          simp only [List.length_cons] at hlt hs
          omega
        obtain ⟨happ, _⟩ := matchAt_sound (c :: rest) tok r hm
        rw [List.flatten_cons, List.flatten_cons, ih [] r hr]
        simp only [List.reverse_nil, List.nil_append]
        rw [← happ]
      | none =>
        show (mdSplitAux n (c :: acc) rest).flatten = List.reverse acc ++ c :: rest
        have hr : rest.length ≤ n := by
          simp only [List.length_cons] at hs
          omega
        rw [ih (c :: acc) rest hr]
        simp

theorem flatten_filter_nonempty :
    ∀ l : List Str, (l.filter (fun p => !p.isEmpty)).flatten = l.flatten := by
  intro l
  induction l with
  | nil => rfl
  | cons p rest ih =>
    by_cases hp : p.isEmpty = true
    · have hp2 : p = [] := by simpa using hp
      rw [List.filter_cons]
      simp [hp2, ih]
    · rw [List.filter_cons]
      simp only [hp, Bool.not_false, if_pos]
      rw [List.flatten_cons, List.flatten_cons, ih]

theorem classify_of_not_wrapped (p : Str) (h : isDelimiterWrapped p = false) :
    classify p = Rendered.text p := by
  unfold isDelimiterWrapped at h
  simp only [Bool.or_eq_false_iff] at h
  obtain ⟨⟨⟨h1, h2⟩, h3⟩, h4⟩ := h
  unfold classify
  rw [h1, h2, h3, h4]
  rfl

/-- C9 counterexample: the content consisting of a single asterisk — an
unterminated italic delimiter — is one segment of the split, and the
classifier renders it as an italic element (the single character both starts
and ends with the delimiter), not as literal text as the claim requires. -/
theorem claim9_counterexample :
    mdSplit ("*".data) = ["*".data] ∧
    classify ("*".data) = Rendered.italic ("*".data) ∧
    Rendered.italic ("*".data) ≠ Rendered.text ("*".data) := by
  refine ⟨by decide, by decide, by decide⟩

/-- C9 amended: the renderer splits the content with the single alternation
regex over the four token shapes — modelled by `mdSplit`, whose segments are
nonempty and concatenate back to the content, so the segmentation is a pure
total function of the content — and classifies each segment by its leading
and trailing delimiters; a segment that does not both start and end with one
of the delimiters is rendered as literal text, but a segment that is itself a
bare unpaired delimiter (for example a lone asterisk) both starts and ends
with that delimiter and is rendered as the corresponding styled element
rather than as literal text. -/
theorem claim9_renderer (content : Str) :
    (mdSplit content).flatten = content ∧
    (∀ p ∈ mdSplit content, p ≠ []) ∧
    (∀ p ∈ mdSplit content, isDelimiterWrapped p = false →
      classify p = Rendered.text p) := by
  refine ⟨?_, ?_, ?_⟩
  · unfold mdSplit
    rw [flatten_filter_nonempty]
    rw [mdSplitAux_flatten content.length [] content (le_refl _)]
    simp
  · intro p hp
    unfold mdSplit at hp
    have hmem := List.mem_filter.mp hp
    simpa using hmem.2
  · intro p hp hnw
    exact classify_of_not_wrapped p hnw

/-- Witness for C9 amended at a concrete content mixing a bold token, plain
text and an unterminated backtick: the segments concatenate back to the
content, and the non-delimited segment renders as literal text. -/
theorem claim9_renderer_witness :
    (mdSplit ("a **b** c".data)).flatten = "a **b** c".data ∧
    classify ("ab".data) = Rendered.text ("ab".data) := by
  constructor
  · exact (claim9_renderer ("a **b** c".data)).1
  · exact (claim9_renderer ("ab".data)).2.2 ("ab".data) (by decide) (by decide)

end AV
